import Mathlib

/-!
# A shallow embedding of `ByteCursor` (`src/bytecursor.rs`)

The Rust `ByteCursor` owns a growable `Vec<u8>` together with a `u64`
read/write position.  We model bytes (`u8`) as `Nat`, `Vec<u8>` as
`List Nat`, and the `u64` position as a `Nat`.  The only places where
machine-integer width matters are made explicit:

* `seek` uses `u64::checked_add` / `u64::checked_sub`, modelled by
  `checkedAddU64` / `checkedSubU64` with the bound `U64_MOD = 2 ^ 64`;
* `write` converts the `u64` position to the host `usize` with
  `try_into`; the host's maximum addressable value is passed explicitly
  as a `usizeMax : Nat` parameter, and the conversion fails exactly when
  the position exceeds it.

Rust methods taking `&mut self` return the updated cursor.  Fallible
methods return their `Result` alongside the final cursor (and, for reads,
the final destination buffer), so that the state left behind on failure
is observable in the model.
-/

/-- Decidable equality for `Except`, so that concrete runs of the model
can be checked by `decide`. -/
instance {ε α : Type} [DecidableEq ε] [DecidableEq α] (x y : Except ε α) :
    Decidable (x = y) :=
  match x, y with
  | .error a, .error b =>
    if h : a = b then isTrue (by subst h; rfl)
    else isFalse (by intro hh; cases hh; exact h rfl)
  | .error _, .ok _ => isFalse (by intro hh; cases hh)
  | .ok _, .error _ => isFalse (by intro hh; cases hh)
  | .ok a, .ok b =>
    if h : a = b then isTrue (by subst h; rfl)
    else isFalse (by intro hh; cases hh; exact h rfl)

/-- The constant `2 ^ 64`, the number of values of a `u64`. -/
def U64_MOD : Nat := 2 ^ 64

/-- Rust `u64::checked_add` on the `Nat` model: `none` exactly when the
sum would overflow a `u64`. -/
def checkedAddU64 (a b : Nat) : Option Nat :=
  if a + b < U64_MOD then some (a + b) else none

/-- Rust `u64::checked_sub` on the `Nat` model: `none` exactly when the
difference would go below zero. -/
def checkedSubU64 (a b : Nat) : Option Nat :=
  if b ≤ a then some (a - b) else none

/-- Rust `enum SeekFrom { Start(u64), End(i64), Current(i64) }`.
The `u64` payload is a `Nat`, the `i64` payloads are `Int`. -/
inductive SeekFrom where
  | Start (n : Nat)
  | End (n : Int)
  | Current (n : Int)
deriving Repr, DecidableEq

/-- Rust `struct ByteCursor { inner: Vec<u8>, pos: u64 }`. -/
structure ByteCursor where
  inner : List Nat
  pos : Nat
deriving Repr, DecidableEq

namespace ByteCursor

/-- Rust `ByteCursor::new`: wraps the bytes, position 0. -/
def new (inner : List Nat) : ByteCursor := { pos := 0, inner := inner }

/-- Rust `ByteCursor::into_inner`: consumes the cursor, returning the bytes. -/
def into_inner (c : ByteCursor) : List Nat := c.inner

/-- Rust `ByteCursor::position`. -/
def position (c : ByteCursor) : Nat := c.pos

/-- Rust `ByteCursor::set_position`. -/
def set_position (c : ByteCursor) (p : Nat) : ByteCursor := { c with pos := p }

/-- Rust `ByteCursor::fill_buf`: `amt = min(pos, inner.len() as u64)`,
returns the slice `inner[amt..]`.  It takes `&mut self` in Rust but never
mutates, so the model returns only the slice. -/
def fill_buf (c : ByteCursor) : List Nat :=
  let amt := min c.pos c.inner.length
  c.inner.drop amt

/-- Rust `ByteCursor::read`: copies `amt = min(buf.len(), from.len())`
bytes of `fill_buf()` to the front of `buf` (via the single-byte
assignment when `amt == 1`, `copy_from_slice` otherwise), advances `pos`
by `amt` and returns `amt`.  Result: `(final buf, amt, final cursor)`. -/
def read (c : ByteCursor) (buf : List Nat) : List Nat × Nat × ByteCursor :=
  let f := c.fill_buf
  let amt := min buf.length f.length
  let a := f.take amt
  let buf' := if amt = 1 then buf.set 0 (a.headD 0) else a ++ buf.drop amt
  (buf', amt, { c with pos := c.pos + amt })

/-- Rust `ByteCursor::read_exact`: errors (before touching `buf` or
`pos`) when `buf.len() > fill_buf().len()`; otherwise overwrites all of
`buf` with the first `buf.len()` bytes of `fill_buf()` and advances `pos`
by `buf.len()`.  Result: `(result, final buf, final cursor)`. -/
def read_exact (c : ByteCursor) (buf : List Nat) :
    Except String Unit × List Nat × ByteCursor :=
  let n := buf.length
  let f := c.fill_buf
  if buf.length > f.length then
    (.error "failed to fill whole buffer", buf, c)
  else
    let a := f.take buf.length
    let buf' := if buf.length = 1 then buf.set 0 (a.headD 0) else a
    (.ok (), buf', { c with pos := c.pos + n })

/-- The shared tail of Rust `ByteCursor::seek` for the `End`/`Current`
arms: checked arithmetic on `(base_pos, offset)`.  For a negative `i64`
offset, `(offset.wrapping_neg()) as u64` is its absolute value (also for
`i64::MIN`), modelled as `(-offset).toNat`. -/
def seekFromBase (c : ByteCursor) (base_pos : Nat) (offset : Int) :
    Except String Nat × ByteCursor :=
  let new_pos :=
    if 0 ≤ offset then checkedAddU64 base_pos offset.toNat
    else checkedSubU64 base_pos (-offset).toNat
  match new_pos with
  | some n => (.ok n, { c with pos := n })
  | none => (.error "invalid seek to a negative or overflowing position", c)

/-- Rust `ByteCursor::seek`: `Start(n)` sets `pos = n` unconditionally;
`End(n)` and `Current(n)` do checked arithmetic from base
`inner.len() as u64` resp. `pos`. -/
def seek (c : ByteCursor) (style : SeekFrom) : Except String Nat × ByteCursor :=
  match style with
  | .Start n => (.ok n, { c with pos := n })
  | .End n => seekFromBase c c.inner.length n
  | .Current n => seekFromBase c c.pos n

/-- Rust `ByteCursor::write`: converts `pos` to `usize` (fails when it
exceeds the host's `usizeMax`), zero-extends the buffer up to `pos` when
it is shorter, overwrites `min(space, buf.len())` bytes in place and
appends the rest, then sets `pos := pos + buf.len()` and returns
`buf.len()`.  Result: `(result, final cursor)`. -/
def write (usizeMax : Nat) (c : ByteCursor) (buf : List Nat) :
    Except String Nat × ByteCursor :=
  if usizeMax < c.pos then
    (.error "cursor position exceeds maximum possible vector length", c)
  else
    let pos := c.pos
    let vec := c.inner
    let len := vec.length
    let vec1 := if len < pos then vec ++ List.replicate (pos - len) 0 else vec
    let space := vec1.length - pos
    let left := buf.take (min space buf.length)
    let right := buf.drop (min space buf.length)
    let vec2 := vec1.take pos ++ left ++ vec1.drop (pos + left.length) ++ right
    (.ok buf.length, { inner := vec2, pos := pos + buf.length })

/-- Rust `ByteCursor::write_all`: loops `write` on the unwritten suffix
of `buf` while it is non-empty; a `write` returning `Ok(0)` on a
non-empty suffix is turned into the short-write error, other errors are
propagated. -/
def write_all (usizeMax : Nat) (c : ByteCursor) (buf : List Nat) :
    Except String Unit × ByteCursor :=
  if h : buf.isEmpty then (.ok (), c)
  else
    match write usizeMax c buf with
    | (.ok 0, c') => (.error "failed to write whole buffer", c')
    | (.ok (n + 1), c') => write_all usizeMax c' (buf.drop (n + 1))
    | (.error e, c') => (.error e, c')
termination_by buf.length
decreasing_by
  have hb : buf.length ≠ 0 := by
    cases buf with
    | nil => simp at h
    | cons x xs => simp
  simp only [List.length_drop]
  omega

end ByteCursor

example : (ByteCursor.new [1, 2, 3]).fill_buf = [1, 2, 3] := by decide
example : ((ByteCursor.new [1, 2, 3]).set_position 1).fill_buf = [2, 3] := by decide
example : (ByteCursor.new [1, 2, 3]).read [0, 0] = ([1, 2], 2, { inner := [1, 2, 3], pos := 2 }) := by decide
example : ((ByteCursor.new [1, 2, 3]).set_position 2).read [0, 0] = ([3, 0], 1, { inner := [1, 2, 3], pos := 3 }) := by decide
example : (ByteCursor.write 100 { inner := [1], pos := 3 } [7, 8]).2 = { inner := [1, 0, 0, 7, 8], pos := 5 } := by decide
example : (ByteCursor.write 2 { inner := [1], pos := 3 } [7, 8]).1 = .error "cursor position exceeds maximum possible vector length" := by decide
example : ((ByteCursor.new []).seek (.End (-1))).1 = .error "invalid seek to a negative or overflowing position" := by decide
example : ((ByteCursor.new [1, 2]).seek (.End (-1))) = (.ok 1, { inner := [1, 2], pos := 1 }) := by decide
example : ((ByteCursor.new [1, 2]).seek (.Current 5)) = (.ok 5, { inner := [1, 2], pos := 5 }) := by decide
namespace ByteCursor

/-- The remaining readable data has length `len(bytes) - min(position, len(bytes))`. -/
theorem fill_buf_length (c : ByteCursor) :
    c.fill_buf.length = c.inner.length - min c.pos c.inner.length := by
  simp [fill_buf]

/-- Setting index 0 of a non-empty list is prepending to its tail. -/
theorem set_zero_eq_cons (buf : List Nat) (x : Nat) (h : buf ≠ []) :
    buf.set 0 x = [x] ++ buf.drop 1 := by
  cases buf with
  | nil => exact absurd rfl h
  | cons b bs => simp

/-- When exactly one byte is transferred, the single-byte assignment
`buf[0] = a[0]` agrees with the general `copy_from_slice` path. -/
theorem one_byte_path (f buf : List Nat) (h : min buf.length f.length = 1) :
    buf.set 0 ((f.take 1).headD 0) = f.take 1 ++ buf.drop 1 := by
  cases f with
  | nil => simp at h
  | cons y ys =>
    cases buf with
    | nil => simp at h
    | cons b bs => simp

/-- The two paths of `read` collapse to a single closed form. -/
theorem read_eq (c : ByteCursor) (buf : List Nat) :
    c.read buf =
      (c.fill_buf.take (min buf.length c.fill_buf.length) ++
         buf.drop (min buf.length c.fill_buf.length),
       min buf.length c.fill_buf.length,
       { c with pos := c.pos + min buf.length c.fill_buf.length }) := by
  by_cases h : min buf.length c.fill_buf.length = 1
  · have hp := one_byte_path c.fill_buf buf h
    simp [read, h]
    simpa using hp
  · simp [read, h]

/-- Running `write` with the position inside the addressable range: it succeeds,
returns `buf.len()`, and advances the position by `buf.len()`. -/
theorem write_fst_snd_of_le (usizeMax : Nat) (c : ByteCursor)
    (buf : List Nat) (h : c.pos ≤ usizeMax) :
    (write usizeMax c buf).1 = .ok buf.length ∧
    (write usizeMax c buf).2.pos = c.pos + buf.length := by
  have h' : ¬ usizeMax < c.pos := by omega
  simp [write, h']

end ByteCursor
namespace ByteCursor

/-- Running `write_all` on an empty buffer: the loop guard is false at once. -/
theorem write_all_nil (usizeMax : Nat) (c : ByteCursor) :
    write_all usizeMax c [] = (.ok (), c) := by
  rw [write_all]
  simp

/-- C9: `fill_buf` returns exactly the sub-sequence of `bytes` from index
`min(position, len(bytes))` to the end: it has the remaining length and
its `i`-th element is the `(min(position, len(bytes)) + i)`-th element of
`bytes`; neither the position nor the bytes are touched (the model's
`fill_buf` does not produce a new cursor at all, mirroring that the Rust
method only reads). -/
theorem fill_buf_spec (c : ByteCursor) :
    c.fill_buf.length = c.inner.length - min c.pos c.inner.length ∧
    ∀ i : Nat, c.fill_buf[i]? = c.inner[min c.pos c.inner.length + i]? := by
  constructor
  · simp [fill_buf]
  · intro i
    simp [fill_buf, List.getElem?_drop]

/-- C6: `read` never fails (its model is total), copies exactly
`k = min(len(buf), remaining)` bytes of the remaining readable data into
the front of `buf` (where `remaining = len(bytes) - min(position,
len(bytes))`), keeps the rest of `buf`, returns `k`, advances the
position by exactly `k`, and leaves the bytes unchanged. -/
theorem read_spec (c : ByteCursor) (buf : List Nat) :
    (c.read buf).2.1 =
      min buf.length (c.inner.length - min c.pos c.inner.length) ∧
    (c.read buf).1 =
      c.fill_buf.take (c.read buf).2.1 ++ buf.drop (c.read buf).2.1 ∧
    (c.read buf).1.length = buf.length ∧
    (c.read buf).2.2.pos = c.pos + (c.read buf).2.1 ∧
    (c.read buf).2.2.inner = c.inner := by
  rw [read_eq]
  refine ⟨by simp [fill_buf_length], by simp, ?_, by simp, by simp⟩
  simp [fill_buf_length]

/-- C3: `write` fails exactly when the current position does not fit in
the host's addressable range; on failure the bytes and position are
unchanged, and on success it returns exactly `len(buf)` and leaves the
position at the old position plus `len(buf)`. -/
theorem write_spec (usizeMax : Nat) (c : ByteCursor) (buf : List Nat) :
    if usizeMax < c.pos then
      write usizeMax c buf =
        (.error "cursor position exceeds maximum possible vector length", c)
    else
      (write usizeMax c buf).1 = .ok buf.length ∧
      (write usizeMax c buf).2.pos = c.pos + buf.length := by
  split_ifs with h
  · simp [write, h]
  · exact write_fst_snd_of_le usizeMax c buf (by omega)

/-- C1: when the remaining readable data (from `min(position,
len(bytes))` to the end) is shorter than `len(buf)`, `read_exact` fails
with the insufficient-data error and leaves `buf`, the position and the
bytes unchanged; otherwise it succeeds, overwrites `buf` with exactly
`len(buf)` bytes of the remaining data, and advances the position by
exactly `len(buf)`. -/
theorem read_exact_spec (c : ByteCursor) (buf : List Nat) :
    if c.inner.length - min c.pos c.inner.length < buf.length then
      c.read_exact buf = (.error "failed to fill whole buffer", buf, c)
    else
      c.read_exact buf =
        (.ok (), c.fill_buf.take buf.length,
          { c with pos := c.pos + buf.length }) ∧
      (c.fill_buf.take buf.length).length = buf.length := by
  have hrem : c.fill_buf.length = c.inner.length - min c.pos c.inner.length :=
    fill_buf_length c
  split_ifs with h
  · have h' : buf.length > c.fill_buf.length := by omega
    simp [read_exact, h']
  · have h' : ¬ buf.length > c.fill_buf.length := by omega
    constructor
    · by_cases h1 : buf.length = 1
      · have hmin : min buf.length c.fill_buf.length = 1 := by omega
        have hp := one_byte_path c.fill_buf buf hmin
        have hd : buf.drop 1 = [] := by
          apply List.drop_eq_nil_of_le
          omega
        rw [hd] at hp
        have hne : c.fill_buf ≠ [] := by
          intro hnil
          have hlen : c.fill_buf.length = 0 := by rw [hnil]; rfl
          omega
        simp [read_exact, h', h1, hne]
        simpa using hp
      · simp [read_exact, h', h1]
    · simp
      omega

end ByteCursor
namespace ByteCursor

/-- The outcome the specification predicts for an `End`/`Current` seek
with the given base (written from the claim's words, to be compared with
the `seek` translated from the source): if `n >= 0` the new position is
`base + n` checked against `u64` overflow, and if `n < 0` it is
`base - |n|` checked for going below zero; on overflow or underflow the
call fails and the cursor is unchanged, otherwise the position is set to
the computed value and that value is returned. -/
def seekSpecOutcome (c : ByteCursor) (base : Nat) (n : Int) :
    Except String Nat × ByteCursor :=
  if 0 ≤ n then
    if base + n.toNat < U64_MOD then
      (.ok (base + n.toNat), { c with pos := base + n.toNat })
    else (.error "invalid seek to a negative or overflowing position", c)
  else
    if (-n).toNat ≤ base then
      (.ok (base - (-n).toNat), { c with pos := base - (-n).toNat })
    else (.error "invalid seek to a negative or overflowing position", c)

/-- C4: `seek(End(n))` and `seek(Current(n))` behave exactly as the
checked-arithmetic outcome with base `len(bytes)` resp. the current
position: `base + n` checked for `u64` overflow when `n >= 0`,
`base - |n|` checked for underflow when `n < 0`; on failure the cursor
(position and bytes) is unchanged, on success the position is set to the
computed value and that value is returned. -/
theorem seek_end_current_spec (c : ByteCursor) (n : Int) :
    c.seek (.End n) = seekSpecOutcome c c.inner.length n ∧
    c.seek (.Current n) = seekSpecOutcome c c.pos n := by
  constructor <;>
  · simp only [seek, seekFromBase, seekSpecOutcome, checkedAddU64,
      checkedSubU64]
    split_ifs <;> simp

/-- C5: `seek(Current(i64::MIN))` from position 0 fails with the
invalid-seek error, `seek(End(-1))` on an empty buffer fails with the
invalid-seek error (both leaving the cursor unchanged), and
`seek(Start(u64::MAX))` always succeeds and sets the position to
`u64::MAX = 2^64 - 1`. -/
theorem seek_overflow_cases :
    (∀ c : ByteCursor, c.pos = 0 →
      c.seek (.Current (-(2 ^ 63))) =
        (.error "invalid seek to a negative or overflowing position", c)) ∧
    (∀ c : ByteCursor, c.inner = [] →
      c.seek (.End (-1)) =
        (.error "invalid seek to a negative or overflowing position", c)) ∧
    (∀ c : ByteCursor,
      c.seek (.Start (2 ^ 64 - 1)) =
        (.ok (2 ^ 64 - 1), { c with pos := 2 ^ 64 - 1 })) := by
  refine ⟨?_, ?_, ?_⟩
  · intro c h
    have h0 : ¬ (0 : Int) ≤ -(2 ^ 63) := by decide
    have h1 : (-(-(2 ^ 63)) : Int).toNat = 2 ^ 63 := by decide
    simp [seek, seekFromBase, checkedSubU64, h, h0, h1]
  · intro c h
    have h0 : ¬ (0 : Int) ≤ -1 := by decide
    have h1 : (-(-1) : Int).toNat = 1 := by decide
    simp [seek, seekFromBase, checkedSubU64, h, h0, h1]
  · intro c
    rfl

/-- C5 witness: the three cases at the concrete empty cursor. -/
theorem seek_overflow_cases_witness :
    (ByteCursor.new []).seek (.Current (-(2 ^ 63))) =
      (.error "invalid seek to a negative or overflowing position",
       ByteCursor.new []) ∧
    (ByteCursor.new []).seek (.End (-1)) =
      (.error "invalid seek to a negative or overflowing position",
       ByteCursor.new []) ∧
    (ByteCursor.new []).seek (.Start (2 ^ 64 - 1)) =
      (.ok (2 ^ 64 - 1), { inner := [], pos := 2 ^ 64 - 1 }) :=
  ⟨seek_overflow_cases.1 (ByteCursor.new []) rfl,
   seek_overflow_cases.2.1 (ByteCursor.new []) rfl,
   seek_overflow_cases.2.2 (ByteCursor.new [])⟩

end ByteCursor
namespace ByteCursor

/-- One pass of the `write_all` loop suffices: for a non-empty buffer the
first `write` either fails (and the error propagates) or writes all of
`buf`, emptying the suffix, so the loop exits after one iteration. -/
theorem write_all_eq (usizeMax : Nat) (c : ByteCursor) (buf : List Nat) :
    write_all usizeMax c buf =
      if buf.isEmpty then (.ok (), c)
      else ((write usizeMax c buf).1.map fun _ => (),
            (write usizeMax c buf).2) := by
  cases buf with
  | nil => simp [write_all_nil]
  | cons b bs =>
    rw [write_all]
    simp only [List.isEmpty_cons, if_false]
    by_cases hp : usizeMax < c.pos
    · have hw : write usizeMax c (b :: bs) =
          (.error "cursor position exceeds maximum possible vector length",
           c) := by
        simp [write, hp]
      rw [hw]
      rfl
    · have h1 : (write usizeMax c (b :: bs)).1 = .ok (b :: bs).length :=
        (write_fst_snd_of_le usizeMax c (b :: bs) (by omega)).1
      have hw : write usizeMax c (b :: bs) =
          ((write usizeMax c (b :: bs)).1,
           (write usizeMax c (b :: bs)).2) := rfl
      rw [h1] at hw
      rw [hw]
      simp only [List.length_cons]
      have hdrop : (b :: bs).drop (bs.length + 1) = [] := by
        simp
      rw [hdrop, write_all_nil]
      simp [Except.map]

end ByteCursor
namespace ByteCursor

/-- C8: the "failed to write whole buffer" branch of `write_all` is
unreachable: `write_all` behaves as a single `write` — `Ok(())` with the
state of one successful write of all of `buf`, or the first write's
error — and its result is either success or the position-overflow error
coming from `write`, never the short-write error. -/
theorem write_all_no_short_write (usizeMax : Nat) (c : ByteCursor)
    (buf : List Nat) :
    write_all usizeMax c buf =
      (if buf.isEmpty then (.ok (), c)
       else ((write usizeMax c buf).1.map fun _ => (),
             (write usizeMax c buf).2)) ∧
    ((write_all usizeMax c buf).1 = .ok () ∨
     (write_all usizeMax c buf).1 =
       .error "cursor position exceeds maximum possible vector length") := by
  refine ⟨write_all_eq usizeMax c buf, ?_⟩
  rw [write_all_eq]
  by_cases hb : buf.isEmpty
  · simp [hb]
  · simp only [hb, if_false]
    by_cases hp : usizeMax < c.pos
    · have hw : (write usizeMax c buf).1 =
          .error "cursor position exceeds maximum possible vector length" := by
        simp [write, hp]
      rw [hw]
      right
      rfl
    · have h1 := (write_fst_snd_of_le usizeMax c buf (by omega)).1
      rw [h1]
      left
      rfl

/-- C10: `write_all` with an empty input buffer returns `Ok(())` and
leaves bytes and position unchanged in every state — including states
where a direct `write` of the empty buffer would instead zero-fill the
gap up to the position (position beyond the end) or fail (position
beyond the addressable range), as the two concrete runs show. -/
theorem write_all_empty_frame :
    (∀ (usizeMax : Nat) (c : ByteCursor),
        write_all usizeMax c [] = (.ok (), c)) ∧
    (write 10 { inner := [], pos := 5 } []).2 =
      { inner := List.replicate 5 0, pos := 5 } ∧
    (write 10 { inner := [], pos := 20 } []).1 =
      .error "cursor position exceeds maximum possible vector length" ∧
    write_all 10 { inner := [], pos := 5 } [] =
      (.ok (), { inner := [], pos := 5 }) ∧
    write_all 10 { inner := [], pos := 20 } [] =
      (.ok (), { inner := [], pos := 20 }) := by
  refine ⟨fun usizeMax c => write_all_nil usizeMax c, by decide, by decide,
    write_all_nil 10 _, write_all_nil 10 _⟩

end ByteCursor
namespace ByteCursor

/-- Running `write` with the position strictly past the end of the buffer: the
gap is zero-filled and all of `buf` is appended after it. -/
theorem write_inner_of_gap (usizeMax : Nat) (c : ByteCursor)
    (buf : List Nat) (h : c.pos ≤ usizeMax) (hge : c.inner.length < c.pos) :
    (write usizeMax c buf).2.inner =
      c.inner ++ List.replicate (c.pos - c.inner.length) 0 ++ buf := by
  have hnp : ¬ usizeMax < c.pos := by omega
  have h1 : (c.inner ++ List.replicate (c.pos - c.inner.length) 0).length
      = c.pos := by
    simp
    omega
  have h3 : (c.inner ++ List.replicate (c.pos - c.inner.length) 0).take c.pos
      = c.inner ++ List.replicate (c.pos - c.inner.length) 0 := by
    apply List.take_of_length_le
    rw [h1]
  have h4 : (c.inner ++ List.replicate (c.pos - c.inner.length) 0).drop c.pos
      = [] := by
    apply List.drop_eq_nil_of_le
    rw [h1]
  have h5 : c.inner.length + (c.pos - c.inner.length) - c.pos = 0 := by omega
  simp [write, hnp, hge, h3, h5, h4]

end ByteCursor
namespace ByteCursor

/-- C2: after `seek(Start(p))` with `p` strictly past the end (and `p`
addressable), a `write(buf)` succeeds and materializes the gap: the final
bytes are the old bytes, then `p - L` zeros, then `buf`; in particular
the ranges `[0, L)`, `[L, p)` and `[p, p + len(buf))` hold the old
bytes, zeros, and `buf` respectively. -/
theorem seek_write_gap_zero_fill (usizeMax : Nat) (c : ByteCursor)
    (p : Nat) (buf : List Nat) (hL : c.inner.length < p) (hp : p ≤ usizeMax) :
    (write usizeMax ((c.seek (.Start p)).2) buf).1 = .ok buf.length ∧
    (write usizeMax ((c.seek (.Start p)).2) buf).2.inner =
      c.inner ++ List.replicate (p - c.inner.length) 0 ++ buf ∧
    (write usizeMax ((c.seek (.Start p)).2) buf).2.inner.take c.inner.length
      = c.inner ∧
    ((write usizeMax ((c.seek (.Start p)).2) buf).2.inner.drop
        c.inner.length).take (p - c.inner.length)
      = List.replicate (p - c.inner.length) 0 ∧
    ((write usizeMax ((c.seek (.Start p)).2) buf).2.inner.drop p).take
        buf.length = buf := by
  have hc1 : (c.seek (.Start p)).2 = { c with pos := p } := rfl
  rw [hc1]
  have hkey : (write usizeMax { c with pos := p } buf).2.inner =
      c.inner ++ List.replicate (p - c.inner.length) 0 ++ buf :=
    write_inner_of_gap usizeMax { c with pos := p } buf hp hL
  have hzlen : (List.replicate (p - c.inner.length) (0 : Nat)).length =
      p - c.inner.length := List.length_replicate _ _
  have hfulllen : (c.inner ++ List.replicate (p - c.inner.length)
      (0 : Nat)).length = p := by
    simp
    omega
  refine ⟨(write_fst_snd_of_le usizeMax { c with pos := p } buf hp).1,
    hkey, ?_, ?_, ?_⟩
  · rw [hkey, List.append_assoc]
    exact List.take_left c.inner _
  · rw [hkey, List.append_assoc, List.drop_left c.inner _,
      List.take_left' hzlen]
  · rw [hkey, List.drop_left' hfulllen, List.take_length]

/-- C2 witness: a one-byte cursor, seek to 3, write two bytes. -/
theorem seek_write_gap_zero_fill_witness :
    ([1] : List Nat).length < 3 ∧ (3 : Nat) ≤ 10 ∧
    (write 10 (((⟨[1], 0⟩ : ByteCursor).seek (.Start 3)).2) [7, 8]).2.inner =
      [1] ++ List.replicate (3 - ([1] : List Nat).length) 0 ++ [7, 8] :=
  ⟨by decide, by decide,
   (seek_write_gap_zero_fill 10 ⟨[1], 0⟩ 3 [7, 8] (by decide) (by decide)).2.1⟩

end ByteCursor
namespace ByteCursor

/-- Running `write` at position 0: the final bytes are `buf`, with the part of
the old bytes beyond `len(buf)` surviving at the end. -/
theorem write_inner_pos_zero (usizeMax : Nat) (c : ByteCursor)
    (s : List Nat) (h0 : c.pos = 0) :
    (write usizeMax c s).2.inner =
      s.take (min c.inner.length s.length) ++
      c.inner.drop (min c.inner.length s.length) ++
      s.drop (min c.inner.length s.length) := by
  have hnp : ¬ usizeMax < c.pos := by omega
  have hmin : min (min c.inner.length s.length) s.length =
      min c.inner.length s.length := by omega
  simp [write, hnp, h0, hmin]

/-- C7: writing `s` at position 0 and then reading `len(s)` bytes from
position 0 yields exactly `s` in the destination buffer (and reports
`len(s)` bytes read), for every initial cursor and every destination
buffer of length `len(s)`, including `len(s) = 0`. -/
theorem write_read_round_trip (usizeMax : Nat) (c : ByteCursor)
    (s dst : List Nat) (h : dst.length = s.length) :
    ((((write usizeMax (c.set_position 0) s).2).set_position 0).read dst).1
      = s ∧
    ((((write usizeMax (c.set_position 0) s).2).set_position 0).read dst).2.1
      = s.length := by
  have hinner : (write usizeMax (c.set_position 0) s).2.inner =
      s.take (min c.inner.length s.length) ++
      c.inner.drop (min c.inner.length s.length) ++
      s.drop (min c.inner.length s.length) :=
    write_inner_pos_zero usizeMax (c.set_position 0) s rfl
  have hlen : s.length ≤ (write usizeMax (c.set_position 0) s).2.inner.length := by
    rw [hinner]
    simp
    omega
  have htake : (write usizeMax (c.set_position 0) s).2.inner.take s.length
      = s := by
    rw [hinner]
    rcases Nat.le_total c.inner.length s.length with hc | hc
    · have hm : min c.inner.length s.length = c.inner.length :=
        Nat.min_eq_left hc
      rw [hm, List.drop_length, List.append_nil, List.take_append_drop]
      exact List.take_length s
    · have hm : min c.inner.length s.length = s.length :=
        Nat.min_eq_right hc
      rw [hm, List.take_length, List.drop_length, List.append_nil]
      exact List.take_left' rfl
  have hfb : ((write usizeMax (c.set_position 0) s).2.set_position 0).fill_buf
      = (write usizeMax (c.set_position 0) s).2.inner := by
    simp [fill_buf, set_position]
  have hmin2 : min dst.length
      ((write usizeMax (c.set_position 0) s).2.set_position 0).fill_buf.length
      = s.length := by
    rw [hfb, h]
    omega
  have hdst : dst.drop s.length = [] :=
    List.drop_eq_nil_of_le (by omega)
  rw [read_eq, hmin2]
  constructor
  · show ((write usizeMax (c.set_position 0) s).2.set_position
        0).fill_buf.take s.length ++ dst.drop s.length = s
    rw [hfb, hdst, List.append_nil]
    exact htake
  · rfl

/-- C7 witness: write three bytes over a two-byte cursor parked at
position 7, then read them back from position 0. -/
theorem write_read_round_trip_witness :
    ([0, 0, 0] : List Nat).length = ([4, 5, 6] : List Nat).length ∧
    ((((write 100 ((⟨[9, 9], 7⟩ : ByteCursor).set_position 0)
        [4, 5, 6]).2).set_position 0).read [0, 0, 0]).1 = [4, 5, 6] :=
  ⟨by decide,
   (write_read_round_trip 100 ⟨[9, 9], 7⟩ [4, 5, 6] [0, 0, 0] (by decide)).1⟩

end ByteCursor
